import Mathlib

/-
Verification development for the locate-and-patch engine of this repository
(source: src/bin/patch-libc.py).

Modelling conventions for the shallow embedding:
- Python strings that are used as byte strings (shm_folder, symbol contents)
  are modelled at the level of their encoded bytes, as List Nat.  For the
  ASCII strings used by this program, len(s.encode()) equals the length of
  that byte list, so the length comparison in patch_library is faithful.
- Filesystem paths are their textual form (String), exactly as the source
  manipulates them (startswith on str(path), membership of str(path) in the
  memo set).
- The filesystem is a finite table: directory listings, file contents,
  symlink targets, an oracle mapping a path to its parsed ELF image (what
  pwnlib ELF(path) would return), and a resolve table for Path.resolve
  (default: identity).
- Effects are events: opening an image, in-memory writes, the assembled jump
  patch, save-to-disk, and makedirs.  Disk contents change only through save
  events; patch_library writes are in-memory (pwnlib mutates its image).
- Generators are modelled eagerly: a run returns the full list a consumer
  would drain, and an exception discards the already-yielded items.  No
  settled claim depends on the items a lazy consumer would already have
  seen before an exception.
- The unbounded while-loop resolving symlinks is modelled with explicit fuel
  (resolveLink); the loop in the source fails to terminate exactly when no
  amount of fuel produces a result.
- traverse_tree recurses only while depth < depth_limit, so its recursion
  depth is bounded by depth_limit - depth; the embedding makes that bound a
  structural argument (gas), instantiated as depth_limit + 1 - depth, and
  keeps the literal depth < depth_limit test of the source.  A gas
  exhaustion error is distinct from symlink-fuel exhaustion and is proved
  unreachable for the instantiation used (traverse_no_gas_error).
-/

/-- Python value that can be either a str or a pathlib Path; needed because
the source compares a Path against the string "/" at line 35. -/
inductive PyVal where
  | str (s : String)
  | path (p : String)
deriving Repr, DecidableEq

/-- Underlying text of a str or Path value (what Path(x) is built from). -/
def pyvalStr : PyVal → String
  | .str s => s
  | .path p => p

/-- Python equality between str/Path values: Path.__eq__ with a str operand
returns NotImplemented, and the fallback makes the comparison False, so
values of different kinds are never equal. -/
def pyEq : PyVal → PyVal → Bool
  | .str a, .str b => a == b
  | .path a, .path b => a == b
  | _, _ => false

/-- Errors raised by the modelled code.  gasExhausted is an artifact of the
structural recursion bound and is proved unreachable for the entry points
used (see traverse_no_gas_error); fuelExhausted models non-termination of
the symlink-resolution while loop. -/
inductive Err where
  | typeError
  | notADirectory
  | valueError
  | ioError
  | fuelExhausted
  | gasExhausted
  | fileNotFound
deriving Repr, DecidableEq

/-- Observable side effects of a run. -/
inductive Event where
  | openLib (p : String)
  | writeMem (address : Nat) (bytes : List Nat)
  | asmPatch (address : Nat)
  | save (source dest : String)
  | mkdirs (p : String)
deriving Repr, DecidableEq

/-- A parsed binary image as exposed by the Binary Image Accessor (pwnlib
ELF): path, display name, symbol table, function table (address and size),
and a flat byte image indexed by address. -/
structure Elf where
  path : String
  name : String
  symbols : List (String × Nat)
  functions : List (String × (Nat × Nat))
  mem : List Nat
deriving Repr, DecidableEq

/-- library.read(address, n). -/
def elfRead (e : Elf) (address n : Nat) : List Nat := (e.mem.drop address).take n

/-- library.write(address, bytes): splice the bytes into the image. -/
def elfWrite (e : Elf) (address : Nat) (bs : List Nat) : Elf :=
  { e with mem := e.mem.take address ++ bs ++ e.mem.drop (address + bs.length) }

/-- The filesystem as finite tables. -/
structure FS where
  dirs : List (String × List String)
  files : List (String × List Nat)
  links : List (String × String)
  images : List (String × Elf)
  realpath : List (String × String)
deriving Repr

def isDir (fs : FS) (p : String) : Bool := (fs.dirs.lookup p).isSome

def isSymlink (fs : FS) (p : String) : Bool := (fs.links.lookup p).isSome

def pathExists (fs : FS) (p : String) : Bool :=
  isDir fs p || (fs.files.lookup p).isSome || isSymlink fs p

/-- Path.resolve modelled by a finite override table, identity by default. -/
def fsResolve (fs : FS) (p : String) : String := (fs.realpath.lookup p).getD p

/-- listStarts pat l is true when pat is an initial segment of l
(str.startswith / bytes.startswith). -/
def listStarts [BEq α] : List α → List α → Bool
  | [], _ => true
  | _ :: _, [] => false
  | a :: as, b :: bs => a == b && listStarts as bs

/-- str.startswith at the level of characters. -/
def strStartsWith (s pat : String) : Bool := listStarts pat.data s.data

/-- hasInfix needle hay: Python (needle in hay) for strings. -/
def hasInfix (needle : List Char) : List Char → Bool
  | [] => needle.isEmpty
  | c :: t => listStarts needle (c :: t) || hasInfix needle t

/-- The conventional shared-library marker test: ".so" in file.name. -/
def soInName (nm : String) : Bool := hasInfix ".so".data nm.data

/-- Python str slicing s[n:]. -/
def strDrop (s : String) (n : Nat) : String := String.mk (s.data.drop n)

/-- pathlib joining: str(Path(a) / b) for a relative b. -/
def pathJoin (a b : String) : String := if a = "/" then a ++ b else a ++ "/" ++ b

/-- Path(p).name: the last component of the textual path (the characters
after the last separator). -/
def baseName (p : String) : String :=
  String.mk ((p.data.reverse.takeWhile (fun c => !(c == '/'))).reverse)

/-- str(Path(p).parent) for an absolute p: everything before the last
separator, with the root as bottom. -/
def parentStr (p : String) : String :=
  let r := (p.data.reverse.dropWhile (fun c => !(c == '/'))).drop 1
  if r.isEmpty then "/" else String.mk r.reverse

/-- Encoded bytes of an ASCII string (codepoints = UTF-8 bytes here). -/
def strBytes (s : String) : List Nat := s.data.map Char.toNat

/-- The fixed 16-byte magic b"\x7fELF\x02\x01\x01" + nine NULs required at
the start of a candidate file (64-bit little-endian ELF). -/
def elfMagic : List Nat := [127, 69, 76, 70, 2, 1, 1, 0, 0, 0, 0, 0, 0, 0, 0, 0]

/-- bytes.strip(b"\x00") helpers: dropZeros removes leading NULs. -/
def dropZeros (l : List Nat) : List Nat := l.dropWhile (fun b => b == 0)

/-- Remove trailing NUL bytes. -/
def stripTrailingNuls (l : List Nat) : List Nat := (dropZeros l.reverse).reverse

/-- bytes.strip(b"\x00"): remove NULs from both ends. -/
def stripNuls (l : List Nat) : List Nat := stripTrailingNuls (dropZeros l)

/-- The while loop at lines 103-104: follow readlink targets until a
non-symlink is reached.  Fuel bounds the number of iterations; none means
the loop has not exited within that many iterations (for a link cycle it
never does, for any fuel). -/
def resolveLink (fs : FS) : Nat → String → Option String
  | 0, p => if isSymlink fs p then none else some p
  | n + 1, p =>
    match fs.links.lookup p with
    | some t => resolveLink fs n t
    | none => some p

/-- Classification of one directory entry by the loop body of
traverse_tree (lines 102-120). -/
inductive ScanChoice where
  | skip
  | yieldFile (p : String)
  | queueDir (p : String)
deriving Repr, DecidableEq

def chooseYield : ScanChoice → Option String
  | .yieldFile p => some p
  | _ => none

def chooseDir : ScanChoice → Option String
  | .queueDir p => some p
  | _ => none

/-- One iteration of the entry loop of traverse_tree: resolve symlinks,
reject entries whose text does not start with the text of the origin, skip
entries in the memo, queue directories while the depth test holds, filter
by the ".so" marker, read the first 16 bytes and require the magic. -/
def classifyChild (fs : FS) (memo : List String) (rfuel : Nat) (flatOrigin : String)
    (canRecurse : Bool) (child : String) : Except Err ScanChoice :=
  match resolveLink fs rfuel child with
  | none => .error .fuelExhausted
  | some f =>
    if !(strStartsWith f flatOrigin) then .ok .skip
    else if memo.contains f then .ok .skip
    else if isDir fs f && canRecurse then .ok (.queueDir f)
    else if !(soInName (baseName f)) then .ok .skip
    else
      match fs.files.lookup f with
      | none => .error .ioError
      | some content =>
        if listStarts elfMagic (content.take 16) then .ok (.yieldFile f) else .ok .skip

/-- map with exception propagation (the for loop over origin.iterdir()). -/
def exMapM (f : α → Except Err β) : List α → Except Err (List β)
  | [] => .ok []
  | a :: as =>
    match f a with
    | .error e => .error e
    | .ok b =>
      match exMapM f as with
      | .error e => .error e
      | .ok bs => .ok (b :: bs)

/-- Traversal output: the yielded candidate paths, and for instrumentation
the list of (directory, depth) whose listing was read. -/
abbrev TravOut := List String × List (String × Nat)

/-- The tail loop of traverse_tree (lines 121-123): traverse each queued
directory in order, concatenating yields. -/
def traverseDirs (deeper : String → Except Err TravOut) : List String → Except Err TravOut
  | [] => .ok ([], [])
  | d :: rest =>
    match deeper d with
    | .error e => .error e
    | .ok (ys, vs) =>
      match traverseDirs deeper rest with
      | .error e => .error e
      | .ok (ys2, vs2) => .ok (ys ++ ys2, vs ++ vs2)

/-- One call of traverse_tree on one origin, with the recursion into queued
directories abstracted as deeper.  Mirrors lines 100-123: list the origin,
classify every entry, yield the matching files, then recurse into the
queued directories. -/
def traverseStep (fs : FS) (memo : List String) (rfuel : Nat) (depthLimit : Nat)
    (deeper : String → Except Err TravOut) (depth : Nat) (origin : String) :
    Except Err TravOut :=
  match fs.dirs.lookup origin with
  | none => .error .ioError
  | some names =>
    match exMapM (classifyChild fs memo rfuel origin (decide (depth < depthLimit)))
        (names.map (fun n => pathJoin origin n)) with
    | .error e => .error e
    | .ok choices =>
      match traverseDirs deeper (choices.filterMap chooseDir) with
      | .error e => .error e
      | .ok (ys2, vs2) =>
        .ok (choices.filterMap chooseYield ++ ys2, (origin, depth) :: vs2)

/-- traverse_tree with a structural recursion bound (gas).  Directories are
only queued while depth < depthLimit, so gas = depthLimit + 1 - depth never
runs out (traverse_no_gas_error). -/
def traverseOne (fs : FS) (memo : List String) (rfuel : Nat) (depthLimit : Nat) :
    Nat → Nat → String → Except Err TravOut
  | 0, depth, origin =>
    traverseStep fs memo rfuel depthLimit (fun _ => .error .gasExhausted) depth origin
  | g + 1, depth, origin =>
    traverseStep fs memo rfuel depthLimit
      (fun d => traverseOne fs memo rfuel depthLimit g (depth + 1) d) depth origin

/-- traverse_tree(origin, memo=memo, depth_limit=depthLimit, depth=depth).
The memo set of the source is only ever read, never added to, so the shared
set is passed through unchanged. -/
def traverse_tree (fs : FS) (memo : List String) (rfuel : Nat)
    (depthLimit depth : Nat) (origin : String) : Except Err TravOut :=
  traverseOne fs memo rfuel depthLimit (depthLimit + 1 - depth) depth origin

/-- The byte list that library.asm(vma, "jmp 0xef91;") deposits, modelled
as an e9 rel32 jump.  No settled claim depends on this encoding. -/
def toLE4 (n : Nat) : List Nat := [n % 256, n / 256 % 256, n / 65536 % 256, n / 16777216 % 256]

def jmpBytes (vma : Nat) : List Nat :=
  233 :: toLE4 ((61329 + 4294967296 - (vma + 5) % 4294967296) % 4294967296)

/-- patch_library (lines 49-84).  Returns the patched image (some), not
applicable (none), or the ValueError of the length check, together with the
event trace.  Only filenames starting with "ld-linux" or "libpthread" are
opened; an image with neither the defaultdir symbol nor the where_is_shmfs
function is skipped after opening, with no write. -/
def patch_library (fs : FS) (path : String) (shmFolder : Option (List Nat)) :
    Except Err (Option Elf) × List Event :=
  if !(strStartsWith (baseName path) "ld-linux" || strStartsWith (baseName path) "libpthread") then
    (.ok none, [])
  else
    let shm := shmFolder.getD (strBytes "/tmp/shm/")
    match fs.images.lookup path with
    | none => (.error .ioError, [.openLib path])
    | some library =>
      let hasDefaultDir := (library.symbols.lookup "defaultdir").isSome
      let hasWhereIsShmfs := (library.functions.lookup "where_is_shmfs").isSome
      if hasDefaultDir || hasWhereIsShmfs then
        match ((if hasDefaultDir then
                match library.symbols.lookup "defaultdir" with
                | some addr =>
                  let currentDefault := stripNuls (elfRead library addr 16)
                  if shm.length ≠ currentDefault.length then .error Err.valueError
                  else .ok (elfWrite library addr shm, [Event.writeMem addr shm])
                | none => .ok (library, [])
              else .ok (library, [])) : Except Err (Elf × List Event)) with
        | .error e => (.error e, [.openLib path])
        | .ok (lib2, ev1) =>
          let step2 :=
            if hasWhereIsShmfs then
              match library.functions.lookup "where_is_shmfs" with
              | some (faddr, _) =>
                let patchPoint := faddr + 24 + 22 + 0
                (elfWrite lib2 patchPoint (jmpBytes patchPoint), [Event.asmPatch patchPoint])
              | none => (lib2, [])
            else (lib2, [])
          (.ok (some step2.1), [Event.openLib path] ++ ev1 ++ step2.2)
      else (.ok none, [.openLib path])

/-- The inner loop of patch_libraries over the candidates of one root:
patch each, keep the non-None results, propagate the first exception. -/
def processCandidates (fs : FS) (shm : Option (List Nat)) :
    List String → Except Err (List Elf) × List Event
  | [] => (.ok [], [])
  | p :: rest =>
    match patch_library fs p shm with
    | (.error e, tr) => (.error e, tr)
    | (.ok none, tr) =>
      match processCandidates fs shm rest with
      | (r, tr2) => (r, tr ++ tr2)
    | (.ok (some library), tr) =>
      match processCandidates fs shm rest with
      | (.error e, tr2) => (.error e, tr ++ tr2)
      | (.ok l, tr2) => (.ok (library :: l), tr ++ tr2)

/-- The outer loop of patch_libraries: for each root that is a directory,
traverse with depth_limit 1 and process the candidates.  The shared seen
set is created once and never added to by traverse_tree, so every traversal
receives the empty memo. -/
def patchRoots (fs : FS) (rfuel : Nat) (shm : Option (List Nat)) :
    List String → Except Err (List Elf) × List Event
  | [] => (.ok [], [])
  | root :: rest =>
    if isDir fs root then
      match traverse_tree fs [] rfuel 1 0 root with
      | .error e => (.error e, [])
      | .ok (ys, _) =>
        match processCandidates fs shm ys with
        | (.error e, tr) => (.error e, tr)
        | (.ok l, tr) =>
          match patchRoots fs rfuel shm rest with
          | (.error e, tr2) => (.error e, tr ++ tr2)
          | (.ok l2, tr2) => (.ok (l ++ l2), tr ++ tr2)
    else patchRoots fs rfuel shm rest

/-- Path("/").glob("lib*"): top-level entries whose name starts with lib. -/
def globLibStar (fs : FS) : List String :=
  (((fs.dirs.lookup "/").getD []).filter (fun n => strStartsWith n "lib")).map
    (fun n => pathJoin "/" n)

/-- patch_libraries (lines 126-140): search_paths=None selects the glob
default. -/
def patch_libraries (fs : FS) (rfuel : Nat) (searchPaths : Option (List String))
    (shm : Option (List Nat)) : Except Err (List Elf) × List Event :=
  match searchPaths with
  | none => patchRoots fs rfuel shm (globLibStar fs)
  | some sp => patchRoots fs rfuel shm sp

/-- Lines 18-26 of main: normalise write_prefix.  A str becomes a Path; an
existing path is resolved and must be a directory (NotADirectoryError
otherwise); a missing path is created with mkdir(parents=True) and kept
unresolved.  The result, when present, is always a Path value. -/
def wpResolve (fs : FS) (wp : Option PyVal) : Except Err (Option PyVal) × List Event :=
  match wp with
  | none => (.ok none, [])
  | some v =>
    let p := pyvalStr v
    if pathExists fs p then
      let p2 := fsResolve fs p
      if isDir fs p2 then (.ok (some (PyVal.path p2)), []) else (.error .notADirectory, [])
    else
      (.ok (some (PyVal.path p)), [.mkdirs p])

/-- Lines 32-43 of main, the Output Writer: decide the flush destination of
one patched library.  Note that write_prefix is a Path value after
normalisation, so the comparison against the string "/" (pyEq) is always
false and the mirrored-copy branch computes the filename. -/
def outputFilename (fs : FS) (wp : Option PyVal) (library : Elf) :
    Option String × List Event :=
  match wp with
  | none => (none, [])
  | some w =>
    if pyEq w (PyVal.str "/") then
      (some library.name, [.save library.path library.path])
    else
      let sourcePath := fsResolve fs library.path
      let sourceDirectory := strDrop (parentStr sourcePath) 1
      let filename := pathJoin (pyvalStr w) (strDrop sourcePath 1)
      (some filename,
        [.mkdirs (pathJoin (pyvalStr w) sourceDirectory), .save library.path filename])

def joinL : List (List Event) → List Event
  | [] => []
  | l :: ls => l ++ joinL ls

/-- The function main of the source (lines 13-46); named mainRun here
because Lean reserves the name main for executables.  search_paths=None is
iterated unconditionally at line 27 and raises TypeError; write_prefix is
normalised first. -/
def mainRun (fs : FS) (rfuel : Nat) (searchPaths : Option (List String))
    (writePre : Option PyVal) (shm : Option (List Nat)) :
    Except Err (List (Elf × Option String)) × List Event :=
  match wpResolve fs writePre with
  | (.error e, ev) => (.error e, ev)
  | (.ok wpN, ev0) =>
    match searchPaths with
    | none => (.error .typeError, ev0)
    | some sp =>
      match patch_libraries fs rfuel (some (sp.filter (fun p => isDir fs p))) shm with
      | (.error e, ev1) => (.error e, ev0 ++ ev1)
      | (.ok libs, ev1) =>
        let outs := libs.map (fun e => (e, outputFilename fs wpN e))
        (.ok (outs.map (fun x => (x.1, x.2.1))), ev0 ++ ev1 ++ joinL (outs.map (fun x => x.2.2)))

/-- The __main__ block (lines 143-163): pick the argument search paths or
the glob default, run main, and raise FileNotFoundError when nothing was
patched. -/
def entryPoint (fs : FS) (rfuel : Nat) (argSearch defaultSearch : List String)
    (pfx : Option PyVal) (shm : Option (List Nat)) :
    Except Err (List (Elf × Option String)) × List Event :=
  let sp := if argSearch.isEmpty then defaultSearch else argSearch
  match mainRun fs rfuel (some sp) pfx shm with
  | (.error e, tr) => (.error e, tr)
  | (.ok libs, tr) => if libs.isEmpty then (.error .fileNotFound, tr) else (.ok libs, tr)

/-- Process exit status: an uncaught exception exits non-zero. -/
def exitCode : Except Err (List (Elf × Option String)) → Nat
  | .ok _ => 0
  | .error _ => 1

/-- Concrete path of the loader library used by the concrete filesystems. -/
def goodPath : String := "/lib/ld-linux-x86-64.so.2"

/-- A loader image whose defaultdir symbol at address 0 holds "/dev/shm/"
padded with seven NULs. -/
def elfGood : Elf :=
  { path := goodPath, name := goodPath,
    symbols := [("defaultdir", 0)], functions := [],
    mem := strBytes "/dev/shm/" ++ List.replicate 7 0 }

/-- A filesystem with one loader library under /lib. -/
def fsGood : FS :=
  { dirs := [("/", ["lib"]), ("/lib", ["ld-linux-x86-64.so.2"])],
    files := [(goodPath, elfMagic)],
    links := [], images := [(goodPath, elfGood)], realpath := [] }

/-- Path of the duplicated library in the overlapping-roots example. -/
def dupPath : String := "/a/b/ld-linux-x86-64.so.2"

/-- A loader image with neither patchable feature. -/
def elfPlain : Elf :=
  { path := dupPath, name := dupPath, symbols := [], functions := [], mem := [] }

/-- Overlapping search roots /a and /a/b around one library file. -/
def fsDup : FS :=
  { dirs := [("/a", ["b"]), ("/a/b", ["ld-linux-x86-64.so.2"])],
    files := [(dupPath, elfMagic)], links := [],
    images := [(dupPath, elfPlain)], realpath := [] }

/-- A directory containing a symlink whose target is itself. -/
def fsCycle : FS :=
  { dirs := [("/a", ["s"])], files := [], links := [("/a/s", "/a/s")],
    images := [], realpath := [] }

/-- An empty filesystem. -/
def fsEmpty : FS :=
  { dirs := [], files := [], links := [], images := [], realpath := [] }

/-- Concrete path of a threading library with both patchable features. -/
def pthreadPath : String := "/lib/libpthread.so.0"

/-- An image with both patchable features: the defaultdir symbol at
address 0 holding "/dev/shm/" padded with NULs, and the where_is_shmfs
function at address 100, whose fixed patch point lies outside the 16-byte
window. -/
def elfBoth : Elf :=
  { path := pthreadPath, name := pthreadPath,
    symbols := [("defaultdir", 0)],
    functions := [("where_is_shmfs", (100, 30))],
    mem := strBytes "/dev/shm/" ++ List.replicate 147 0 }

/-- A filesystem holding the two-feature threading library. -/
def fsBoth : FS :=
  { dirs := [("/", ["lib"]), ("/lib", ["libpthread.so.0"])],
    files := [(pthreadPath, elfMagic)], links := [],
    images := [(pthreadPath, elfBoth)], realpath := [] }

/-
Supporting lemmas.
-/

theorem listStarts_full {a b : List Nat} (h : listStarts a b = true)
    (hlen : b.length ≤ a.length) : b = a := by
  induction a generalizing b with
  | nil =>
    cases b with
    | nil => rfl
    | cons x xs => simp at hlen
  | cons x xs ih =>
    cases b with
    | nil => cases h
    | cons y ys =>
      simp only [listStarts, Bool.and_eq_true, beq_iff_eq] at h
      obtain ⟨rfl, h2⟩ := h
      simp only [List.length_cons, Nat.add_le_add_iff_right] at hlen
      rw [ih h2 hlen]

theorem exMapM_ok_mem {α β : Type} {f : α → Except Err β} :
    ∀ {l : List α} {res : List β}, exMapM f l = .ok res →
      ∀ b ∈ res, ∃ a ∈ l, f a = .ok b := by
  intro l
  induction l with
  | nil =>
    intro res h b hb
    simp only [exMapM, Except.ok.injEq] at h
    subst h
    cases hb
  | cons a as ih =>
    intro res h b hb
    simp only [exMapM] at h
    cases hfa : f a with
    | error e => rw [hfa] at h; cases h
    | ok v =>
      rw [hfa] at h
      cases hrec : exMapM f as with
      | error e => rw [hrec] at h; cases h
      | ok vs =>
        rw [hrec] at h
        injection h with h
        subst h
        rcases List.mem_cons.mp hb with rfl | hb
        · exact ⟨a, List.mem_cons_self a as, hfa⟩
        · obtain ⟨a2, ha2, hfa2⟩ := ih hrec b hb
          exact ⟨a2, List.mem_cons_of_mem _ ha2, hfa2⟩

theorem exMapM_error_mem {α β : Type} {f : α → Except Err β} :
    ∀ {l : List α} {e : Err}, exMapM f l = .error e → ∃ a ∈ l, f a = .error e := by
  intro l
  induction l with
  | nil => intro e h; cases h
  | cons a as ih =>
    intro e h
    simp only [exMapM] at h
    cases hfa : f a with
    | error e2 =>
      rw [hfa] at h
      injection h with h
      subst h
      exact ⟨a, List.mem_cons_self a as, hfa⟩
    | ok v =>
      rw [hfa] at h
      cases hrec : exMapM f as with
      | error e2 =>
        rw [hrec] at h
        injection h with h
        subst h
        obtain ⟨a2, ha2, hfa2⟩ := ih hrec
        exact ⟨a2, List.mem_cons_of_mem _ ha2, hfa2⟩
      | ok vs => rw [hrec] at h; cases h

theorem traverseDirs_ok_mem {deeper : String → Except Err TravOut} :
    ∀ {ds ys : List String} {vs : List (String × Nat)},
      traverseDirs deeper ds = .ok (ys, vs) →
      (∀ p ∈ ys, ∃ d ∈ ds, ∃ ys2 vs2, deeper d = .ok (ys2, vs2) ∧ p ∈ ys2) ∧
      (∀ q ∈ vs, ∃ d ∈ ds, ∃ ys2 vs2, deeper d = .ok (ys2, vs2) ∧ q ∈ vs2) := by
  intro ds
  induction ds with
  | nil =>
    intro ys vs h
    simp only [traverseDirs, Except.ok.injEq, Prod.mk.injEq] at h
    obtain ⟨h1, h2⟩ := h
    subst h1; subst h2
    exact ⟨fun p hp => absurd hp (List.not_mem_nil p),
           fun q hq => absurd hq (List.not_mem_nil q)⟩
  | cons d rest ih =>
    intro ys vs h
    simp only [traverseDirs] at h
    cases hd : deeper d with
    | error e => rw [hd] at h; cases h
    | ok pr =>
      obtain ⟨ys1, vs1⟩ := pr
      rw [hd] at h
      cases hrec : traverseDirs deeper rest with
      | error e => rw [hrec] at h; cases h
      | ok pr2 =>
        obtain ⟨ys2, vs2⟩ := pr2
        rw [hrec] at h
        simp only [Except.ok.injEq, Prod.mk.injEq] at h
        obtain ⟨hy, hv⟩ := h
        subst hy; subst hv
        obtain ⟨ihy, ihv⟩ := ih hrec
        constructor
        · intro p hp
          rcases List.mem_append.mp hp with hp | hp
          · exact ⟨d, List.mem_cons_self d rest, ys1, vs1, hd, hp⟩
          · obtain ⟨d2, hd2, ys3, vs3, hdeep, hmem⟩ := ihy p hp
            exact ⟨d2, List.mem_cons_of_mem _ hd2, ys3, vs3, hdeep, hmem⟩
        · intro q hq
          rcases List.mem_append.mp hq with hq | hq
          · exact ⟨d, List.mem_cons_self d rest, ys1, vs1, hd, hq⟩
          · obtain ⟨d2, hd2, ys3, vs3, hdeep, hmem⟩ := ihv q hq
            exact ⟨d2, List.mem_cons_of_mem _ hd2, ys3, vs3, hdeep, hmem⟩

theorem traverseDirs_error_mem {deeper : String → Except Err TravOut} :
    ∀ {ds : List String} {e : Err},
      traverseDirs deeper ds = .error e → ∃ d ∈ ds, deeper d = .error e := by
  intro ds
  induction ds with
  | nil => intro e h; cases h
  | cons d rest ih =>
    intro e h
    simp only [traverseDirs] at h
    cases hd : deeper d with
    | error e2 =>
      rw [hd] at h
      injection h with h
      subst h
      exact ⟨d, List.mem_cons_self d rest, hd⟩
    | ok pr =>
      obtain ⟨ys1, vs1⟩ := pr
      rw [hd] at h
      cases hrec : traverseDirs deeper rest with
      | error e2 =>
        rw [hrec] at h
        injection h with h
        subst h
        obtain ⟨d2, hd2, hdeep⟩ := ih hrec
        exact ⟨d2, List.mem_cons_of_mem _ hd2, hdeep⟩
      | ok pr2 => obtain ⟨ys2, vs2⟩ := pr2; rw [hrec] at h; cases h

theorem classifyChild_yield {fs : FS} {memo : List String} {rfuel : Nat}
    {flatOrigin : String} {canR : Bool} {child p : String}
    (h : classifyChild fs memo rfuel flatOrigin canR child = .ok (.yieldFile p)) :
    soInName (baseName p) = true ∧
    ∃ c, fs.files.lookup p = some c ∧ c.take 16 = elfMagic := by
  unfold classifyChild at h
  split at h
  · simp at h
  · rename_i f hres
    split at h
    · simp at h
    · split at h
      · simp at h
      · split at h
        · simp at h
        · split at h
          · simp at h
          · rename_i hso
            split at h
            · simp at h
            · rename_i content hlk
              split at h
              · rename_i hmagic
                simp only [Except.ok.injEq, ScanChoice.yieldFile.injEq] at h
                subst h
                refine ⟨by simp at hso; exact hso, content, hlk, ?_⟩
                have hlen : (content.take 16).length ≤ elfMagic.length := by
                  rw [List.length_take]
                  simp only [elfMagic, List.length_cons, List.length_nil]
                  omega
                exact listStarts_full hmagic hlen
              · simp at h

theorem classifyChild_queue {fs : FS} {memo : List String} {rfuel : Nat}
    {flatOrigin : String} {canR : Bool} {child p : String}
    (h : classifyChild fs memo rfuel flatOrigin canR child = .ok (.queueDir p)) :
    canR = true ∧ isDir fs p = true := by
  unfold classifyChild at h
  split at h
  · simp at h
  · rename_i f hres
    split at h
    · simp at h
    · split at h
      · simp at h
      · split at h
        · rename_i hq
          simp only [Except.ok.injEq, ScanChoice.queueDir.injEq] at h
          subst h
          simp only [Bool.and_eq_true] at hq
          exact ⟨hq.2, hq.1⟩
        · split at h
          · simp at h
          · split at h
            · simp at h
            · split at h <;> simp at h

theorem classifyChild_no_gas (fs : FS) (memo : List String) (rfuel : Nat)
    (flatOrigin : String) (canR : Bool) (child : String) :
    classifyChild fs memo rfuel flatOrigin canR child ≠ .error .gasExhausted := by
  unfold classifyChild
  split
  · simp
  · split
    · simp
    · split
      · simp
      · split
        · simp
        · split
          · simp
          · split
            · simp
            · split <;> simp

theorem traverseStep_ok {fs : FS} {memo : List String} {rfuel L : Nat}
    {deeper : String → Except Err TravOut} {depth : Nat} {origin : String}
    {ys : List String} {vs : List (String × Nat)}
    (h : traverseStep fs memo rfuel L deeper depth origin = .ok (ys, vs)) :
    ∃ names choices ys2 vs2,
      fs.dirs.lookup origin = some names ∧
      exMapM (classifyChild fs memo rfuel origin (decide (depth < L)))
        (names.map (fun n => pathJoin origin n)) = .ok choices ∧
      traverseDirs deeper (choices.filterMap chooseDir) = .ok (ys2, vs2) ∧
      ys = choices.filterMap chooseYield ++ ys2 ∧
      vs = (origin, depth) :: vs2 := by
  unfold traverseStep at h
  split at h
  · simp at h
  · rename_i names hnames
    split at h
    · simp at h
    · rename_i choices hchoices
      split at h
      · simp at h
      · rename_i ys2 vs2 hdirs
        simp only [Except.ok.injEq, Prod.mk.injEq] at h
        exact ⟨names, choices, ys2, vs2, hnames, hchoices, hdirs, h.1.symm, h.2.symm⟩

theorem traverseStep_error {fs : FS} {memo : List String} {rfuel L : Nat}
    {deeper : String → Except Err TravOut} {depth : Nat} {origin : String} {e : Err}
    (h : traverseStep fs memo rfuel L deeper depth origin = .error e) :
    e = .ioError ∨
    (∃ child, classifyChild fs memo rfuel origin (decide (depth < L)) child = .error e) ∨
    (∃ names choices d,
      fs.dirs.lookup origin = some names ∧
      exMapM (classifyChild fs memo rfuel origin (decide (depth < L)))
        (names.map (fun n => pathJoin origin n)) = .ok choices ∧
      d ∈ choices.filterMap chooseDir ∧ deeper d = .error e) := by
  unfold traverseStep at h
  split at h
  · injection h with h; exact Or.inl h.symm
  · rename_i names hnames
    split at h
    · rename_i e2 hmap
      injection h with h
      subst h
      obtain ⟨child, _, hc⟩ := exMapM_error_mem hmap
      exact Or.inr (Or.inl ⟨child, hc⟩)
    · rename_i choices hchoices
      split at h
      · rename_i e2 hdirs
        injection h with h
        subst h
        obtain ⟨d, hd, hdeep⟩ := traverseDirs_error_mem hdirs
        exact Or.inr (Or.inr ⟨names, choices, d, hnames, hchoices, hd, hdeep⟩)
      · simp at h

theorem traverseOne_yield_sound (fs : FS) (memo : List String) (rfuel L : Nat) :
    ∀ (g depth : Nat) (origin : String) (ys : List String) (vs : List (String × Nat)),
      traverseOne fs memo rfuel L g depth origin = .ok (ys, vs) →
      ∀ p ∈ ys, soInName (baseName p) = true ∧
        ∃ c, fs.files.lookup p = some c ∧ c.take 16 = elfMagic := by
  intro g
  induction g with
  | zero =>
    intro depth origin ys vs h p hp
    obtain ⟨names, choices, ys2, vs2, _, hchoices, hdirs, hy, _⟩ := traverseStep_ok h
    subst hy
    rcases List.mem_append.mp hp with hp | hp
    · obtain ⟨ch, hch, hsome⟩ := List.mem_filterMap.mp hp
      cases ch with
      | skip => cases hsome
      | queueDir q => cases hsome
      | yieldFile q =>
        injection hsome with hq
        subst hq
        obtain ⟨child, _, hcls⟩ := exMapM_ok_mem hchoices _ hch
        exact classifyChild_yield hcls
    · obtain ⟨hys, _⟩ := traverseDirs_ok_mem hdirs
      obtain ⟨d, _, ys3, vs3, hdeep, _⟩ := hys p hp
      cases hdeep
  | succ g ih =>
    intro depth origin ys vs h p hp
    obtain ⟨names, choices, ys2, vs2, _, hchoices, hdirs, hy, _⟩ := traverseStep_ok h
    subst hy
    rcases List.mem_append.mp hp with hp | hp
    · obtain ⟨ch, hch, hsome⟩ := List.mem_filterMap.mp hp
      cases ch with
      | skip => cases hsome
      | queueDir q => cases hsome
      | yieldFile q =>
        injection hsome with hq
        subst hq
        obtain ⟨child, _, hcls⟩ := exMapM_ok_mem hchoices _ hch
        exact classifyChild_yield hcls
    · obtain ⟨hys, _⟩ := traverseDirs_ok_mem hdirs
      obtain ⟨d, _, ys3, vs3, hdeep, hmem⟩ := hys p hp
      exact ih (depth + 1) d ys3 vs3 hdeep p hmem

theorem traverseOne_depth_bound (fs : FS) (memo : List String) (rfuel L : Nat) :
    ∀ (g depth : Nat) (origin : String) (ys : List String) (vs : List (String × Nat)),
      traverseOne fs memo rfuel L g depth origin = .ok (ys, vs) →
      ∀ q ∈ vs, q.2 ≤ max depth L := by
  intro g
  induction g with
  | zero =>
    intro depth origin ys vs h q hq
    obtain ⟨names, choices, ys2, vs2, _, hchoices, hdirs, _, hv⟩ := traverseStep_ok h
    subst hv
    rcases List.mem_cons.mp hq with rfl | hq
    · exact Nat.le_max_left depth L
    · obtain ⟨_, hvs⟩ := traverseDirs_ok_mem hdirs
      obtain ⟨d, _, ys3, vs3, hdeep, _⟩ := hvs q hq
      cases hdeep
  | succ g ih =>
    intro depth origin ys vs h q hq
    obtain ⟨names, choices, ys2, vs2, _, hchoices, hdirs, _, hv⟩ := traverseStep_ok h
    subst hv
    rcases List.mem_cons.mp hq with rfl | hq
    · exact Nat.le_max_left depth L
    · obtain ⟨_, hvs⟩ := traverseDirs_ok_mem hdirs
      obtain ⟨d, hd, ys3, vs3, hdeep, hmem⟩ := hvs q hq
      have hdle : depth < L := by
        obtain ⟨ch, hch, hsome⟩ := List.mem_filterMap.mp hd
        cases ch with
        | skip => cases hsome
        | yieldFile q2 => cases hsome
        | queueDir q2 =>
          injection hsome with hq2
          subst hq2
          obtain ⟨child, _, hcls⟩ := exMapM_ok_mem hchoices _ hch
          have := (classifyChild_queue hcls).1
          exact of_decide_eq_true this
      have := ih (depth + 1) d ys3 vs3 hdeep q hmem
      have hmax : max (depth + 1) L = L := Nat.max_eq_right hdle
      rw [hmax] at this
      exact le_trans this (Nat.le_max_right depth L)

theorem traverseStep_no_gas (fs : FS) (memo : List String) (rfuel L : Nat)
    (deeper : String → Except Err TravOut) (depth : Nat) (origin : String)
    (hdeep : decide (depth < L) = true → ∀ d, deeper d ≠ .error .gasExhausted) :
    traverseStep fs memo rfuel L deeper depth origin ≠ .error .gasExhausted := by
  intro h
  rcases traverseStep_error h with h1 | ⟨child, h2⟩ | ⟨names, choices, d, _, hchoices, hd, hdd⟩
  · cases h1
  · exact classifyChild_no_gas fs memo rfuel origin _ child h2
  · have hdec : decide (depth < L) = true := by
      obtain ⟨ch, hch, hsome⟩ := List.mem_filterMap.mp hd
      cases ch with
      | skip => cases hsome
      | yieldFile q => cases hsome
      | queueDir q =>
        injection hsome with hq
        subst hq
        obtain ⟨child, _, hcls⟩ := exMapM_ok_mem hchoices _ hch
        exact (classifyChild_queue hcls).1
    exact hdeep hdec d hdd

theorem traverseOne_no_gas (fs : FS) (memo : List String) (rfuel L : Nat) :
    ∀ (g depth : Nat) (origin : String), L ≤ depth + g →
      traverseOne fs memo rfuel L g depth origin ≠ .error .gasExhausted := by
  intro g
  induction g with
  | zero =>
    intro depth origin hL
    apply traverseStep_no_gas
    intro hdec d
    have := of_decide_eq_true hdec
    omega
  | succ g ih =>
    intro depth origin hL
    apply traverseStep_no_gas
    intro _ d
    exact ih (depth + 1) d (by omega)

/-- The gas bound used by traverse_tree never runs out: the only
exhaustion the traversal can report is symlink-resolution fuel. -/
theorem traverse_tree_no_gas (fs : FS) (memo : List String) (rfuel : Nat)
    (depthLimit depth : Nat) (origin : String) :
    traverse_tree fs memo rfuel depthLimit depth origin ≠ .error .gasExhausted := by
  unfold traverse_tree
  exact traverseOne_no_gas fs memo rfuel depthLimit _ depth origin (by omega)

theorem dropZeros_replicate_append (k : Nat) (l : List Nat) :
    dropZeros (List.replicate k 0 ++ l) = dropZeros l := by
  unfold dropZeros
  rw [List.dropWhile_append_of_pos]
  intro a ha
  simp [List.eq_of_mem_replicate ha]

theorem dropZeros_of_head {l : List Nat} (h : l.head? ≠ some 0) : dropZeros l = l := by
  cases l with
  | nil => rfl
  | cons a t =>
    have ha : a ≠ 0 := by
      intro h0
      subst h0
      exact h rfl
    simp [dropZeros, List.dropWhile_cons, ha]

theorem stripTrailingNuls_append_replicate (r : List Nat) (k : Nat)
    (h : r.getLast? ≠ some 0) :
    stripTrailingNuls (r ++ List.replicate k 0) = r := by
  unfold stripTrailingNuls
  rw [List.reverse_append, List.reverse_replicate, dropZeros_replicate_append,
    dropZeros_of_head, List.reverse_reverse]
  rw [List.head?_reverse]
  exact h

theorem stripNuls_padded (v : List Nat) (k : Nat)
    (h0 : v.head? ≠ some 0) (h1 : v.getLast? ≠ some 0) :
    stripNuls (v ++ List.replicate k 0) = v := by
  cases v with
  | nil =>
    show stripNuls (List.replicate k 0) = []
    unfold stripNuls
    rw [show dropZeros (List.replicate k 0) = dropZeros [] from by
      simpa using dropZeros_replicate_append k []]
    rfl
  | cons a t =>
    unfold stripNuls
    rw [show ((a :: t) ++ List.replicate k 0) = a :: (t ++ List.replicate k 0) from rfl]
    rw [dropZeros_of_head (by simpa using h0)]
    exact stripTrailingNuls_append_replicate _ k h1

theorem elfRead_after_write (e : Elf) (addr : Nat) (v r : List Nat) (k : Nat)
    (hread : elfRead e addr 16 = v ++ List.replicate k 0)
    (hk : v.length + k = 16) (hr : r.length = v.length) :
    elfRead (elfWrite e addr r) addr 16 = r ++ List.replicate k 0 := by
  have hlen := congrArg List.length hread
  simp only [elfRead, List.length_take, List.length_drop, List.length_append,
    List.length_replicate] at hlen
  have hmem : addr + 16 ≤ e.mem.length := by omega
  have htl : (e.mem.take addr).length = addr := by
    rw [List.length_take]
    omega
  have hrk : 16 - r.length = k := by omega
  have hr16 : r.length ≤ 16 := by omega
  have hdrop := congrArg (List.drop v.length) hread
  simp only [elfRead] at hdrop
  rw [List.drop_take, List.drop_drop, List.drop_left] at hdrop
  have h16v : 16 - v.length = k := by omega
  rw [h16v] at hdrop
  show ((e.mem.take addr ++ r ++ e.mem.drop (addr + r.length)).drop addr).take 16 = _
  rw [List.append_assoc, List.drop_left' htl, List.take_append_eq_append_take,
    List.take_of_length_le hr16, hrk, hr, hdrop]

theorem elfRead_write_disjoint (e : Elf) (a : Nat) (bs : List Nat) (addr : Nat)
    (hwin : addr + 16 ≤ e.mem.length)
    (h : a + bs.length ≤ addr ∨ addr + 16 ≤ a) :
    elfRead (elfWrite e a bs) addr 16 = elfRead e addr 16 := by
  rcases h with h | h
  · have ha : a ≤ e.mem.length := by omega
    have hX : (e.mem.take a ++ bs).length = a + bs.length := by
      simp [List.length_take]
      omega
    have k1 : (e.mem.take a ++ bs ++ e.mem.drop (a + bs.length)).drop addr =
        (e.mem.drop (a + bs.length)).drop (addr - (a + bs.length)) := by
      have h1 : addr = (e.mem.take a ++ bs).length + (addr - (a + bs.length)) := by
        rw [hX]
        omega
      nth_rewrite 1 [h1]
      rw [← List.drop_drop, List.drop_left]
    have k2 : (e.mem.drop (a + bs.length)).drop (addr - (a + bs.length)) =
        e.mem.drop addr := by
      rw [List.drop_drop]
      congr 1
      omega
    show ((e.mem.take a ++ bs ++ e.mem.drop (a + bs.length)).drop addr).take 16 = _
    rw [k1, k2]
    rfl
  · show ((e.mem.take a ++ bs ++ e.mem.drop (a + bs.length)).drop addr).take 16 = _
    rw [List.append_assoc, List.drop_append_eq_append_drop, List.take_append_eq_append_take]
    have hlen1 : ((e.mem.take a).drop addr).length = min a e.mem.length - addr := by
      simp [List.length_drop, List.length_take]
    have h16 : 16 - ((e.mem.take a).drop addr).length = 0 := by
      rw [hlen1]
      omega
    rw [h16, List.take_zero, List.append_nil, List.drop_take, List.take_take]
    congr 1
    omega

theorem strDrop_slash (rest : String) : strDrop ("/" ++ rest) 1 = rest := by
  unfold strDrop
  cases rest with
  | mk d => simp [String.data_append]

theorem patch_library_no_save (fs : FS) (path : String) (shm : Option (List Nat)) :
    ∀ s d, Event.save s d ∉ (patch_library fs path shm).2 := by
  intro s d
  unfold patch_library
  split
  · simp
  · split
    · simp
    · rename_i library heq
      cases hsym : library.symbols.lookup "defaultdir" with
      | none =>
        cases hfn : library.functions.lookup "where_is_shmfs" with
        | none => simp [hsym, hfn]
        | some pr =>
          obtain ⟨faddr, fsz⟩ := pr
          simp [hsym, hfn]
      | some addr =>
        cases hfn : library.functions.lookup "where_is_shmfs" with
        | none =>
          by_cases hlen :
            (shm.getD (strBytes "/tmp/shm/")).length = (stripNuls (elfRead library addr 16)).length
          · simp [hsym, hfn, hlen]
          · simp [hsym, hfn, hlen]
        | some pr =>
          obtain ⟨faddr, fsz⟩ := pr
          by_cases hlen :
            (shm.getD (strBytes "/tmp/shm/")).length = (stripNuls (elfRead library addr 16)).length
          · simp [hsym, hfn, hlen]
          · simp [hsym, hfn, hlen]

theorem processCandidates_no_save (fs : FS) (shm : Option (List Nat)) :
    ∀ (cs : List String) (s d : String), Event.save s d ∉ (processCandidates fs shm cs).2 := by
  intro cs
  induction cs with
  | nil => intro s d; simp [processCandidates]
  | cons p rest ih =>
    intro s d
    unfold processCandidates
    have hp := patch_library_no_save fs p shm s d
    split
    · rename_i e tr heq
      rw [heq] at hp
      exact hp
    · rename_i tr heq
      rw [heq] at hp
      split
      · rename_i r2 tr2 heq2
        have h2 := ih s d
        rw [heq2] at h2
        simp [List.mem_append]
        exact ⟨fun hc => hp hc, fun hc => h2 hc⟩
    · rename_i lib tr heq
      rw [heq] at hp
      split
      · rename_i e2 tr2 heq2
        have h2 := ih s d
        rw [heq2] at h2
        simp [List.mem_append]
        exact ⟨fun hc => hp hc, fun hc => h2 hc⟩
      · rename_i l2 tr2 heq2
        have h2 := ih s d
        rw [heq2] at h2
        simp [List.mem_append]
        exact ⟨fun hc => hp hc, fun hc => h2 hc⟩

theorem patch_library_mismatch (fs : FS) (path : String) (elf : Elf) (addr : Nat)
    (r : List Nat)
    (hpre : strStartsWith (baseName path) "ld-linux" = true ∨
            strStartsWith (baseName path) "libpthread" = true)
    (himg : fs.images.lookup path = some elf)
    (hsym : elf.symbols.lookup "defaultdir" = some addr)
    (hlen : r.length ≠ (stripNuls (elfRead elf addr 16)).length) :
    patch_library fs path (some r) = (.error .valueError, [.openLib path]) := by
  have hcond : (strStartsWith (baseName path) "ld-linux" ||
      strStartsWith (baseName path) "libpthread") = true := by
    rcases hpre with h | h <;> simp [h]
  simp [patch_library, hcond, himg, hsym, hlen]

theorem processCandidates_abort (fs : FS) (r : List Nat) (p : String)
    (hbad : patch_library fs p (some r) = (.error .valueError, [.openLib p])) :
    ∀ (pre post : List String) (l : List Elf) (trPre : List Event),
      processCandidates fs (some r) pre = (.ok l, trPre) →
      processCandidates fs (some r) (pre ++ p :: post) =
        (.error .valueError, trPre ++ [.openLib p]) := by
  intro pre
  induction pre with
  | nil =>
    intro post l trPre hpre
    simp only [processCandidates, Prod.mk.injEq] at hpre
    obtain ⟨_, htr⟩ := hpre
    subst htr
    simp only [List.nil_append, processCandidates, hbad, List.append_nil]
  | cons a rest ih =>
    intro post l trPre hpre
    simp only [processCandidates] at hpre
    show processCandidates fs (some r) (a :: (rest ++ p :: post)) = _
    simp only [processCandidates]
    cases hpa : patch_library fs a (some r) with
    | mk res tr =>
      cases res with
      | error e => rw [hpa] at hpre; simp at hpre
      | ok opt =>
        cases opt with
        | none =>
          rw [hpa] at hpre
          cases hrec : processCandidates fs (some r) rest with
          | mk res2 tr2 =>
            rw [hrec] at hpre
            simp only [Prod.mk.injEq] at hpre
            obtain ⟨hres2, htr⟩ := hpre
            subst htr
            cases res2 with
            | error e => cases hres2
            | ok l2 =>
              rw [ih post l2 tr2 hrec]
              simp [List.append_assoc]
        | some lib =>
          rw [hpa] at hpre
          cases hrec : processCandidates fs (some r) rest with
          | mk res2 tr2 =>
            rw [hrec] at hpre
            cases res2 with
            | error e => simp at hpre
            | ok l2 =>
              simp only [Prod.mk.injEq] at hpre
              obtain ⟨_, htr⟩ := hpre
              subst htr
              rw [ih post l2 tr2 hrec]
              simp [List.append_assoc]

theorem wpResolve_no_save (fs : FS) (wp : Option PyVal) :
    ∀ s d, Event.save s d ∉ (wpResolve fs wp).2 := by
  intro s d
  unfold wpResolve
  split
  · simp
  · dsimp only
    split
    · split <;> simp
    · simp

theorem resolveLink_cycle : ∀ n, resolveLink fsCycle n "/a/s" = none := by
  intro n
  induction n with
  | zero => rfl
  | succ n ih =>
    show resolveLink fsCycle (n + 1) "/a/s" = none
    simp only [resolveLink]
    rw [show fsCycle.links.lookup "/a/s" = some "/a/s" from rfl]
    exact ih

/-
Claim theorems.
-/

/-- C1 (amended): for every library whose name starts with the loader or
the threading prefix, whose 16-byte window at the defaultdir symbol holds a
NUL-padded current value, and for any replacement of the same encoded byte
length whose encoded bytes do not end in a NUL byte, patch_library writes
the replacement bytes at the symbol address; reading the 16-byte window
back afterwards shows the replacement followed by the original NUL padding,
and stripping trailing NULs yields exactly the replacement.  When the image
also has the detection function, the fixed jump patch site is assumed not
to overlap the window (a function body overlapping a data symbol would be a
degenerate image). -/
theorem c1_string_patch (fs : FS) (path : String) (elf : Elf) (addr : Nat)
    (v r : List Nat) (k : Nat)
    (hpre : strStartsWith (baseName path) "ld-linux" = true ∨
            strStartsWith (baseName path) "libpthread" = true)
    (himg : fs.images.lookup path = some elf)
    (hsym : elf.symbols.lookup "defaultdir" = some addr)
    (hfn : ∀ faddr fsize,
      elf.functions.lookup "where_is_shmfs" = some (faddr, fsize) →
      (faddr + 24 + 22 + 0) + (jmpBytes (faddr + 24 + 22 + 0)).length ≤ addr ∨
      addr + 16 ≤ faddr + 24 + 22 + 0)
    (hread : elfRead elf addr 16 = v ++ List.replicate k 0)
    (hk : v.length + k = 16)
    (hv0 : v.head? ≠ some 0)
    (hv1 : v.getLast? ≠ some 0)
    (hrlen : r.length = v.length)
    (hr1 : r.getLast? ≠ some 0) :
    ∃ elf2 ev2,
      patch_library fs path (some r) =
        (.ok (some elf2), [.openLib path, .writeMem addr r] ++ ev2) ∧
      elfRead elf2 addr 16 = r ++ List.replicate k 0 ∧
      stripTrailingNuls (elfRead elf2 addr 16) = r := by
  have hcur : stripNuls (elfRead elf addr 16) = v := by
    rw [hread]
    exact stripNuls_padded v k hv0 hv1
  have hcond : (strStartsWith (baseName path) "ld-linux" ||
      strStartsWith (baseName path) "libpthread") = true := by
    rcases hpre with h | h <;> simp [h]
  have hafter : elfRead (elfWrite elf addr r) addr 16 = r ++ List.replicate k 0 :=
    elfRead_after_write elf addr v r k hread hk hrlen
  have hwin : addr + 16 ≤ elf.mem.length := by
    have := congrArg List.length hread
    simp only [elfRead, List.length_take, List.length_drop, List.length_append,
      List.length_replicate] at this
    omega
  cases hfncase : elf.functions.lookup "where_is_shmfs" with
  | none =>
    refine ⟨elfWrite elf addr r, [], ?_, hafter, ?_⟩
    · simp [patch_library, hcond, himg, hsym, hfncase, hcur, hrlen]
    · rw [hafter]
      exact stripTrailingNuls_append_replicate r k hr1
  | some pr =>
    obtain ⟨faddr, fsize⟩ := pr
    have hdisj := hfn faddr fsize hfncase
    have hwin2 : addr + 16 ≤ (elfWrite elf addr r).mem.length := by
      simp only [elfWrite, List.length_append, List.length_take, List.length_drop]
      omega
    have hread2 : elfRead (elfWrite (elfWrite elf addr r) (faddr + 24 + 22 + 0)
        (jmpBytes (faddr + 24 + 22 + 0))) addr 16 = r ++ List.replicate k 0 := by
      rw [elfRead_write_disjoint _ _ _ _ hwin2 hdisj, hafter]
    refine ⟨elfWrite (elfWrite elf addr r) (faddr + 24 + 22 + 0)
        (jmpBytes (faddr + 24 + 22 + 0)),
      [.asmPatch (faddr + 24 + 22 + 0)], ?_, hread2, ?_⟩
    · simp [patch_library, hcond, himg, hsym, hfncase, hcur, hrlen]
    · rw [hread2]
      exact stripTrailingNuls_append_replicate r k hr1

/-- C1 witness: patching "/dev/shm/" (padded to 16 bytes) with the
equal-length "/tmp/shm/" succeeds and reads back exactly, both for a
loader library without the detection function and for a threading library
that also receives the jump patch. -/
theorem c1_string_patch_witness :
    (∃ elf2 ev2,
      patch_library fsGood goodPath (some (strBytes "/tmp/shm/")) =
        (.ok (some elf2), [.openLib goodPath, .writeMem 0 (strBytes "/tmp/shm/")] ++ ev2) ∧
      elfRead elf2 0 16 = strBytes "/tmp/shm/" ++ List.replicate 7 0 ∧
      stripTrailingNuls (elfRead elf2 0 16) = strBytes "/tmp/shm/") ∧
    (∃ elf2 ev2,
      patch_library fsBoth pthreadPath (some (strBytes "/tmp/shm/")) =
        (.ok (some elf2), [.openLib pthreadPath, .writeMem 0 (strBytes "/tmp/shm/")] ++ ev2) ∧
      elfRead elf2 0 16 = strBytes "/tmp/shm/" ++ List.replicate 7 0 ∧
      stripTrailingNuls (elfRead elf2 0 16) = strBytes "/tmp/shm/") := by
  constructor
  · exact c1_string_patch fsGood goodPath elfGood 0 (strBytes "/dev/shm/")
      (strBytes "/tmp/shm/") 7 (Or.inl (by decide)) rfl rfl
      (by intro faddr fsize h; cases h) rfl (by decide) (by decide) (by decide)
      (by decide) (by decide)
  · refine c1_string_patch fsBoth pthreadPath elfBoth 0 (strBytes "/dev/shm/")
      (strBytes "/tmp/shm/") 7 (Or.inr (by decide)) rfl rfl ?_ rfl (by decide)
      (by decide) (by decide) (by decide) (by decide)
    intro faddr fsize h
    have h2 : some ((100 : Nat), (30 : Nat)) = some (faddr, fsize) := h
    injection h2 with h3
    injection h3 with h4 h5
    subst h4
    right
    omega

/-- C1 counterexample: the replacement "/tmp/shm" followed by one NUL byte
has the same encoded length (9) as the current value "/dev/shm/", the
window is NUL padded, the patch is applied, yet reading the window back and
stripping trailing NULs yields "/tmp/shm", not the replacement; the claim
as stated is false for replacements whose encoded bytes end in NUL. -/
theorem c1_counterexample :
    (strBytes "/tmp/shm" ++ [0]).length = (stripNuls (elfRead elfGood 0 16)).length ∧
    elfRead elfGood 0 16 = strBytes "/dev/shm/" ++ List.replicate 7 0 ∧
    (patch_library fsGood goodPath (some (strBytes "/tmp/shm" ++ [0]))).1 =
      .ok (some (elfWrite elfGood 0 (strBytes "/tmp/shm" ++ [0]))) ∧
    stripTrailingNuls (elfRead (elfWrite elfGood 0 (strBytes "/tmp/shm" ++ [0])) 0 16) ≠
      strBytes "/tmp/shm" ++ [0] :=
  ⟨rfl, rfl, rfl, by decide⟩

/-- C2: when the replacement length differs from the stored value length,
patch_library raises ValueError with no write event, the run aborts at that
library (the trace of the whole candidate loop ends at its open, nothing
after it is processed), main propagates the error, and no save event exists
anywhere in the trace, so no file is created or modified on disk. -/
theorem c2_length_mismatch_aborts (fs : FS) (rfuel : Nat) (root path : String)
    (elf : Elf) (addr : Nat) (r : List Nat) (pre post : List String)
    (vs : List (String × Nat)) (l : List Elf) (trPre : List Event)
    (wp : Option PyVal) (wpN : Option PyVal) (evN : List Event)
    (hpre : strStartsWith (baseName path) "ld-linux" = true ∨
            strStartsWith (baseName path) "libpthread" = true)
    (himg : fs.images.lookup path = some elf)
    (hsym : elf.symbols.lookup "defaultdir" = some addr)
    (hlen : r.length ≠ (stripNuls (elfRead elf addr 16)).length)
    (hdir : isDir fs root = true)
    (htrav : traverse_tree fs [] rfuel 1 0 root = .ok (pre ++ path :: post, vs))
    (hproc : processCandidates fs (some r) pre = (.ok l, trPre))
    (hnorm : wpResolve fs wp = (.ok wpN, evN)) :
    patch_library fs path (some r) = (.error .valueError, [.openLib path]) ∧
    processCandidates fs (some r) (pre ++ path :: post) =
      (.error .valueError, trPre ++ [.openLib path]) ∧
    mainRun fs rfuel (some [root]) wp (some r) =
      (.error .valueError, evN ++ (trPre ++ [.openLib path])) ∧
    ∀ s d, Event.save s d ∉ evN ++ (trPre ++ [.openLib path]) := by
  have hbad := patch_library_mismatch fs path elf addr r hpre himg hsym hlen
  have habort := processCandidates_abort fs r path hbad pre post l trPre hproc
  refine ⟨hbad, habort, ?_, ?_⟩
  · have hfilter : List.filter (fun p => isDir fs p) [root] = [root] := by
      simp [List.filter, hdir]
    have hroots : patchRoots fs rfuel (some r) [root] =
        (.error .valueError, trPre ++ [.openLib path]) := by
      unfold patchRoots
      rw [if_pos hdir, htrav]
      dsimp only
      rw [habort]
    unfold mainRun
    rw [hnorm]
    dsimp only
    rw [hfilter]
    unfold patch_libraries
    dsimp only
    rw [hroots]
  · intro s d
    simp only [List.mem_append, List.mem_singleton]
    rintro (hc | hc | hc)
    · exact wpResolve_no_save fs wp s d (by rw [hnorm]; exact hc)
    · exact processCandidates_no_save fs (some r) pre s d (by rw [hproc]; exact hc)
    · cases hc

/-- C2 witness: a 19-byte replacement against the 9-byte stored value
aborts the whole run with ValueError, with no write and no save. -/
theorem c2_witness :
    patch_library fsGood goodPath (some (strBytes "/tmp/shared-memory/")) =
      (.error .valueError, [.openLib goodPath]) ∧
    processCandidates fsGood (some (strBytes "/tmp/shared-memory/")) [goodPath] =
      (.error .valueError, [.openLib goodPath]) ∧
    mainRun fsGood 0 (some ["/lib"]) none (some (strBytes "/tmp/shared-memory/")) =
      (.error .valueError, [.openLib goodPath]) ∧
    Event.save "/x" "/y" ∉ ([Event.openLib goodPath] : List Event) := by
  have h := c2_length_mismatch_aborts fsGood 0 "/lib" goodPath elfGood 0
    (strBytes "/tmp/shared-memory/") [] [] [("/lib", 0)] [] [] none none []
    (Or.inl (by decide)) rfl rfl (by decide) rfl rfl rfl rfl
  exact ⟨h.1, h.2.1, h.2.2.1, h.2.2.2 "/x" "/y"⟩

/-- C3 (the code violates it): with overlapping search roots /a and /a/b,
the same resolved path is examined twice in one run: the run opens the same
library once per root, and each traversal yields it again, because
traverse_tree only ever tests membership in the shared memo set and never
inserts into it. -/
theorem c3_duplicate_examination :
    patch_libraries fsDup 0 (some ["/a", "/a/b"]) none =
      (.ok [], [.openLib dupPath, .openLib dupPath]) ∧
    traverse_tree fsDup [] 0 1 0 "/a" = .ok ([dupPath], [("/a", 0), ("/a/b", 1)]) ∧
    traverse_tree fsDup [] 0 1 0 "/a/b" = .ok ([dupPath], [("/a/b", 0)]) :=
  ⟨rfl, rfl, rfl⟩

/-- C4 (the code violates it): in a directory holding a symlink whose
target chain returns to itself, the symlink-resolution while loop never
exits, so the traversal fails for every fuel bound instead of terminating
with a finite sequence. -/
theorem c4_symlink_cycle_diverges :
    ∀ rfuel, traverse_tree fsCycle [] rfuel 1 0 "/a" = .error .fuelExhausted := by
  intro rfuel
  have h := resolveLink_cycle rfuel
  have hcls : classifyChild fsCycle [] rfuel "/a" (decide (0 < 1)) "/a/s" =
      .error .fuelExhausted := by
    unfold classifyChild
    rw [h]
  show traverseOne fsCycle [] rfuel 1 2 0 "/a" = _
  unfold traverseOne traverseStep
  rw [show fsCycle.dirs.lookup "/a" = some ["s"] from rfl]
  dsimp only [List.map]
  rw [show pathJoin "/a" "s" = "/a/s" from rfl]
  unfold exMapM
  rw [hcls]

/-- C5: if the run patches zero libraries, the entry point raises the
no-op usage error and the process exits non-zero; an exit with status zero
always carries a non-empty list of patched libraries. -/
theorem c5_zero_patched_is_fatal (fs : FS) (rfuel : Nat)
    (argSearch defaultSearch : List String) (pfx : Option PyVal)
    (shm : Option (List Nat)) :
    (∀ tr, mainRun fs rfuel (some (if argSearch.isEmpty then defaultSearch else argSearch))
        pfx shm = (.ok [], tr) →
      entryPoint fs rfuel argSearch defaultSearch pfx shm = (.error .fileNotFound, tr) ∧
      exitCode (entryPoint fs rfuel argSearch defaultSearch pfx shm).1 = 1) ∧
    (∀ libs tr, entryPoint fs rfuel argSearch defaultSearch pfx shm = (.ok libs, tr) →
      libs ≠ []) := by
  constructor
  · intro tr h
    have hE : entryPoint fs rfuel argSearch defaultSearch pfx shm =
        (.error .fileNotFound, tr) := by
      unfold entryPoint
      dsimp only
      rw [h]
      rfl
    exact ⟨hE, by rw [hE]; rfl⟩
  · intro libs tr h hnil
    subst hnil
    unfold entryPoint at h
    dsimp only at h
    cases hm : mainRun fs rfuel
        (some (if argSearch.isEmpty then defaultSearch else argSearch)) pfx shm with
    | mk res tr2 =>
      rw [hm] at h
      cases res with
      | error e => simp at h
      | ok libs2 =>
        by_cases hemp : libs2.isEmpty
        · simp [hemp] at h
        · simp only [hemp, if_false, Bool.false_eq_true, Prod.mk.injEq,
            Except.ok.injEq] at h
          rw [h.1] at hemp
          simp at hemp

/-- C5 witness: an empty run fails with the usage error and exit code 1;
a run over fsGood exits 0 with one patched library. -/
theorem c5_witness :
    (entryPoint fsEmpty 0 ["/lib"] ["/x"] none none = (.error .fileNotFound, []) ∧
     exitCode (entryPoint fsEmpty 0 ["/lib"] ["/x"] none none).1 = 1) ∧
    ([(elfWrite elfGood 0 (strBytes "/tmp/shm/"), (none : Option String))] ≠
      ([] : List (Elf × Option String))) := by
  refine ⟨(c5_zero_patched_is_fatal fsEmpty 0 ["/lib"] ["/x"] none none).1 [] rfl, ?_⟩
  exact (c5_zero_patched_is_fatal fsGood 0 [] ["/lib"] none none).2
    [(elfWrite elfGood 0 (strBytes "/tmp/shm/"), none)]
    [Event.openLib goodPath, Event.writeMem 0 (strBytes "/tmp/shm/")] rfl

/-- C6: when the overwrite policy is selected (write_prefix normalises to
the root Path), the flush destination computed by the Output Writer for a
patched library equals the library original file path, so the pending
bytes go back to the source file.  The Path-versus-str comparison at line
35 is always false, and the destination is produced by the mirrored-copy
arithmetic, which at the root prefix reproduces the source path. -/
theorem c6_overwrite_destination (fs : FS) (library : Elf) (rest : String)
    (hroot : fsResolve fs "/" = "/")
    (hdir : isDir fs "/" = true)
    (hres : fsResolve fs library.path = library.path)
    (hpath : library.path = "/" ++ rest) :
    wpResolve fs (some (PyVal.str "/")) = (.ok (some (PyVal.path "/")), []) ∧
    (outputFilename fs (some (PyVal.path "/")) library).1 = some library.path ∧
    Event.save library.path library.path ∈
      (outputFilename fs (some (PyVal.path "/")) library).2 := by
  have hexists : pathExists fs "/" = true := by simp [pathExists, hdir]
  have hfile : pathJoin "/" (strDrop library.path 1) = library.path := by
    rw [hpath, strDrop_slash]
    simp [pathJoin]
  have hout : outputFilename fs (some (PyVal.path "/")) library =
      (some library.path,
        [Event.mkdirs (pathJoin "/" (strDrop (parentStr library.path) 1)),
         Event.save library.path library.path]) := by
    unfold outputFilename
    dsimp only [pyEq, pyvalStr]
    rw [hres, hfile]
    simp
  refine ⟨?_, ?_, ?_⟩
  · unfold wpResolve
    dsimp only [pyvalStr]
    rw [hexists, hroot]
    simp [hdir]
  · rw [hout]
  · rw [hout]
    simp

/-- C6 witness: for the concrete loader library the destination equals the
source path. -/
theorem c6_witness :
    wpResolve fsGood (some (PyVal.str "/")) = (.ok (some (PyVal.path "/")), []) ∧
    (outputFilename fsGood (some (PyVal.path "/")) elfGood).1 = some elfGood.path ∧
    Event.save elfGood.path elfGood.path ∈
      (outputFilename fsGood (some (PyVal.path "/")) elfGood).2 :=
  c6_overwrite_destination fsGood elfGood "lib/ld-linux-x86-64.so.2" rfl rfl rfl rfl

/-- C7: every path yielded by the traversal has the ".so" marker in its
name and a file whose first 16 bytes are exactly the 64-bit little-endian
ELF magic; contrapositively, a file failing either test is never yielded
(the traversal itself performs no writes, and unyielded files never reach
patch_library). -/
theorem c7_yield_filters (fs : FS) (memo : List String) (rfuel depthLimit depth : Nat)
    (origin : String) (ys : List String) (vs : List (String × Nat))
    (h : traverse_tree fs memo rfuel depthLimit depth origin = .ok (ys, vs)) :
    ∀ p ∈ ys, soInName (baseName p) = true ∧
      ∃ c, fs.files.lookup p = some c ∧ c.take 16 = elfMagic :=
  traverseOne_yield_sound fs memo rfuel depthLimit _ depth origin ys vs h

/-- C7 witness: the yielded loader library passes both filters. -/
theorem c7_witness :
    soInName (baseName dupPath) = true ∧
    ∃ c, fsDup.files.lookup dupPath = some c ∧ c.take 16 = elfMagic :=
  c7_yield_filters fsDup [] 0 1 0 "/a" [dupPath] [("/a", 0), ("/a/b", 1)] rfl
    dupPath (by simp)

/-- C8: starting a traversal at depth 0, every directory whose listing is
read sits at a depth no greater than the configured limit: directories are
queued for recursion only while the current depth is strictly below the
limit, so no visit exceeds it. -/
theorem c8_depth_limit (fs : FS) (memo : List String) (rfuel depthLimit : Nat)
    (origin : String) (ys : List String) (vs : List (String × Nat))
    (h : traverse_tree fs memo rfuel depthLimit 0 origin = .ok (ys, vs)) :
    ∀ q ∈ vs, q.2 ≤ depthLimit := by
  intro q hq
  have := traverseOne_depth_bound fs memo rfuel depthLimit _ 0 origin ys vs h q hq
  simpa using this

/-- C8 witness: the two directories visited with limit 1 are at depths 0
and 1. -/
theorem c8_witness :
    traverse_tree fsDup [] 0 1 0 "/a" = .ok ([dupPath], [("/a", 0), ("/a/b", 1)]) ∧
    (("/a/b", 1) : String × Nat).2 ≤ 1 :=
  ⟨rfl, c8_depth_limit fsDup [] 0 1 "/a" [dupPath] [("/a", 0), ("/a/b", 1)] rfl
    ("/a/b", 1) (by simp)⟩

/-- C9: patch_library returns None for every filename that starts with
neither the dynamic-loader prefix nor the threading-library prefix, without
opening the file at all (empty trace); and an opened image that has neither
the defaultdir symbol nor the where_is_shmfs function is skipped with no
write performed (the trace holds only the open). -/
theorem c9_gatekeeping (fs : FS) (path : String) (shm : Option (List Nat)) :
    (strStartsWith (baseName path) "ld-linux" = false →
     strStartsWith (baseName path) "libpthread" = false →
     patch_library fs path shm = (.ok none, [])) ∧
    (∀ elf, (strStartsWith (baseName path) "ld-linux" = true ∨
             strStartsWith (baseName path) "libpthread" = true) →
      fs.images.lookup path = some elf →
      elf.symbols.lookup "defaultdir" = none →
      elf.functions.lookup "where_is_shmfs" = none →
      patch_library fs path shm = (.ok none, [.openLib path])) := by
  constructor
  · intro h1 h2
    simp [patch_library, h1, h2]
  · intro elf hpre himg h1 h2
    have hcond : (strStartsWith (baseName path) "ld-linux" ||
        strStartsWith (baseName path) "libpthread") = true := by
      rcases hpre with h | h <;> simp [h]
    simp [patch_library, hcond, himg, h1, h2]

/-- C9 witness: libc is never opened; a loader image with neither feature
is opened and skipped without writes. -/
theorem c9_witness :
    patch_library fsGood "/lib/libc.so.6" none = (.ok none, []) ∧
    patch_library fsDup dupPath none = (.ok none, [.openLib dupPath]) :=
  ⟨(c9_gatekeeping fsGood "/lib/libc.so.6" none).1 (by decide) (by decide),
   (c9_gatekeeping fsDup dupPath none).2 elfPlain (Or.inl (by decide)) rfl rfl rfl⟩

/-- C10: calling main with search_paths = None raises TypeError before any
scanning (the trace is empty), because the argument is iterated
unconditionally at line 27; patch_libraries, by contrast, interprets None
as the glob default over the top-level lib* directories. -/
theorem c10_none_search_paths (fs : FS) (rfuel : Nat) (shm : Option (List Nat)) :
    mainRun fs rfuel none none shm = (.error .typeError, []) ∧
    patch_libraries fs rfuel none shm =
      patch_libraries fs rfuel (some (globLibStar fs)) shm :=
  ⟨rfl, rfl⟩
